import Mathlib

/-!
Verification of the tusgo client library against its specification.

This file gives a shallow embedding of the upload engine and control client
of the tusgo repository (the `UploadStream` PATCH machinery of `stream.go`,
the control-client operations and metadata codec of `client.go`, the error
taxonomy of `error.go`, and the deferred-trailer reader of
`checksum/trailer.go`), together with theorems settling the claims drawn
from the specification.

Modelling conventions:
  * Go `int64` values (offsets, sizes, chunk sizes, byte counts) are `Int`;
    byte amounts held by readers and buffers are `Nat`.
  * Readers are modelled by the number of bytes they still hold, with
    `bytes.Reader` semantics: a read request for `k` bytes returns
    `min k avail` bytes, and end of stream is reported once empty.  Buffer
    contents are irrelevant to the claims settled here, only counts matter.
  * An HTTP response is a record of the header fields the code inspects.
    The `Upload-Expires` header is carried in already-parsed form (absent,
    malformed, or a parsed timestamp), since the RFC 1123 clock/time parser
    is an external collaborator of the library.
  * The network is a script: a list of responses consumed one per request;
    an exhausted script models a transport error.
  * On the request object the `Content-Length` header and the Go
    `http.Request.ContentLength` field are identified: setting the header
    sets the field read back by `Upload` on a 204 response.
  * Server capabilities are assumed to be cached on the client
    (`Capabilities != nil`), so `ensureExtension` is a pure membership test.
  * Go panics (nil upload, negative size, bad chunk size, slicing with a
    negative bound) are modelled by a `panicked` flag in results.
-/

/-- Parse a run of decimal digit characters, accumulating into `acc`;
`none` if a non-digit occurs. Mirrors the digit loop of `strconv.ParseInt`. -/
def parseDigits : List Char → Nat → Option Nat
  | [], acc => some acc
  | c :: rest, acc =>
      if c.isDigit then parseDigits rest (acc * 10 + (c.toNat - 48)) else none

/-- Embedding of `strconv.ParseInt(s, 10, 64)` as used on tus headers:
an optional sign followed by at least one digit; the empty string fails.
(Overflow of 64-bit values is not modelled.) -/
def parseIntStr (s : String) : Option Int :=
  match s.toList with
  | [] => none
  | '+' :: rest => if rest = [] then none else (parseDigits rest 0).map Int.ofNat
  | '-' :: rest => if rest = [] then none else (parseDigits rest 0).map (fun n => -(n : Int))
  | cs => (parseDigits cs 0).map Int.ofNat

/-- The `Upload` record (`upload.go`): remote offset and size in bytes, and
the optional expiration timestamp (already parsed).  The location and
metadata attributes are irrelevant to the stream claims and live in the
separate client-side record `PUpload`. -/
structure Upload where
  remoteOffset : Int
  remoteSize : Int
  uploadExpired : Option Nat
deriving DecidableEq, Repr

/-- An HTTP response as inspected by the library: status code and the
headers that the code reads.  A missing string-valued header is the empty
string, as with Go's `http.Header.Get`.  `uploadExpires` is `none` when the
`Upload-Expires` header is absent, `some none` when present but not parseable
as RFC 1123, and `some (some t)` when it parses to the timestamp `t`. -/
structure Response where
  statusCode : Nat
  uploadOffset : String
  uploadExpires : Option (Option Nat)
  tusResumable : String
  tusVersion : String
  locationHdr : String
deriving DecidableEq, Repr

/-- The error taxonomy (`error.go`) together with the wrapped `fmt.Errorf`
errors produced by the stream and client.  Constructors carry the data the
corresponding Go error message interpolates. -/
inductive UErr where
  /-- `ErrProtocol` itself. -/
  | protocol
  /-- "server offset %d did not move forward, new offset is %d: %w(ErrProtocol)" -/
  | offsetNotMoved (old new : Int)
  /-- "cannot parse Upload-Offset header %q: %w(ErrProtocol)" -/
  | parseOffset (raw : String)
  /-- "cannot parse Upload-Expires RFC1123 header %q: %w(ErrProtocol)" -/
  | parseExpires
  /-- 412 from `tusRequest`: "request protocol version %q, server supported versions: %q: %w(ErrProtocol)" -/
  | versionMismatch412 (serverVersions : String)
  /-- response `Tus-Resumable` disagreement: "server response protocol version %s, requested version %s: %w(ErrProtocol)" -/
  | versionMismatchResp (got want : String)
  /-- `ErrUnexpectedResponse` (wraps `ErrProtocol`). -/
  | unexpectedResponse
  /-- `ErrOffsetsNotSynced`. -/
  | offsetsNotSynced
  /-- `ErrCannotUpload`. -/
  | cannotUpload
  /-- `ErrUploadDoesNotExist`. -/
  | uploadDoesNotExist
  /-- `ErrUploadTooLarge`. -/
  | uploadTooLarge
  /-- `ErrChecksumMismatch`. -/
  | checksumMismatch
  /-- "server extension %q is required: %w(ErrUnsupportedFeature)" -/
  | unsupportedFeature (ext : String)
  /-- `io.ErrShortWrite`. -/
  | shortWrite
  /-- a transport-level failure of `http.Client.Do` (modelled by script exhaustion). -/
  | transport
  /-- `ConcatenateUploads`: "upload %q is not partial" (a caller error). -/
  | concatNotPart (location : String)
  /-- `EncodeMetadata`: "key %q contains spaces" (a caller error). -/
  | metadataKeySpace (key : List Nat)
  /-- `Seek`: "offset %d exceeds the upload size %d bytes". -/
  | seekExceedsSize (newOffset size : Int)
  /-- `Seek`: "offset %d is negative". -/
  | seekNegative (newOffset : Int)
deriving DecidableEq, Repr

/-- `errors.Is(e, ErrProtocol)`: which errors of the taxonomy wrap
`ErrProtocol` (directly or, for `ErrUnexpectedResponse`, via `%w`). -/
def UErr.isProtocol : UErr → Bool
  | .protocol => true
  | .offsetNotMoved _ _ => true
  | .parseOffset _ => true
  | .parseExpires => true
  | .versionMismatch412 _ => true
  | .versionMismatchResp _ _ => true
  | .unexpectedResponse => true
  | _ => false

/-- The stream-relevant configuration of an `UploadStream` and its client:
chunk size policy, whether a checksum algorithm was set, the
`SetUploadSize` flag, and the cached server extensions. -/
structure StreamConfig where
  chunkSize : Int
  checksumEnabled : Bool
  setUploadSize : Bool
  extensions : List String
deriving DecidableEq, Repr

/-- `Client.ensureExtension` with the capabilities already cached:
a pure membership test on the advertised extension list. -/
def ensureExtension (exts : List String) (e : String) : Option UErr :=
  if e ∈ exts then none else some (.unsupportedFeature e)

/-- Result of `UploadStream.validate`: passes, fails with an error, or
panics (unknown/negative upload size, bad chunk size). -/
inductive ValidateResult where
  | ok
  | err (e : UErr)
  | panicked
deriving DecidableEq, Repr

/-- Embedding of `UploadStream.validate` (stream.go): panics on an unknown
(`SizeUnknown = -1`) or negative upload size and on a negative `ChunkSize`
other than `NoChunked = 0`; requires the `creation-defer-length` extension
when `SetUploadSize` is set and the `checksum` extension when a checksum
algorithm is configured. -/
def validate (cfg : StreamConfig) (u : Upload) : ValidateResult :=
  if u.remoteSize < 0 then .panicked
  else if cfg.setUploadSize ∧ "creation-defer-length" ∉ cfg.extensions then
    .err (.unsupportedFeature "creation-defer-length")
  else if cfg.checksumEnabled ∧ "checksum" ∉ cfg.extensions then
    .err (.unsupportedFeature "checksum")
  else if cfg.chunkSize < 0 then .panicked
  else .ok

/-- Outcome of `io.ReadAtLeast` in the byte-counting reader model. -/
inductive ReadErr where
  | noErr
  | eofErr
  | unexpectedEOF
deriving DecidableEq, Repr

/-- Embedding of `io.ReadAtLeast(r, buf, min)` for a `bytes.Reader`-like
source holding `src` bytes and a buffer of length `bufLen ≥ min`: a single
read fills `min bufLen src` bytes; if fewer than `minB` arrive the next
read reports end of stream.  Returns (bytes read, error, bytes left). -/
def readAtLeast (src : Nat) (bufLen : Nat) (minB : Int) : Nat × ReadErr × Nat :=
  if minB ≤ 0 then (0, .noErr, src)
  else if minB.toNat ≤ src then
    let d := min bufLen src
    (d, .noErr, src - d)
  else if 0 < src then (src, .unexpectedEOF, 0)
  else (0, .eofErr, 0)

/-- Result of one `UploadStream.Upload` call. `response` is the consumed
server response (`none` when no request reached the server), `offset` is the
function's offset return value, `bytesUploaded` its byte-count return value,
and `srcAvail` the bytes remaining in the source reader. -/
structure PatchOutcome where
  bytesUploaded : Int
  offset : Int
  response : Option Response
  err : Option UErr
  upload : Upload
  responses : List Response
  srcAvail : Nat
  panicked : Bool
deriving DecidableEq, Repr

/-- The status switch of `UploadStream.Upload` (stream.go): maps the
response of a PATCH to the byte count, new offset, error and updated upload
record.  `clField` is the request's `ContentLength` (0 when never set). -/
def handleResponse (checksumEnabled : Bool) (offset0 : Int) (clField : Int)
    (u : Upload) (r : Response) : Int × Int × Option UErr × Upload :=
  if r.statusCode = 204 then
    match parseIntStr r.uploadOffset with
    | none => (clField, 0, some (.parseOffset r.uploadOffset), u)
    | some v =>
      match r.uploadExpires with
      | none => (clField, v, none, u)
      | some none => (clField, v, some .parseExpires, u)
      | some (some t) => (clField, v, none, { u with uploadExpired := some t })
  else if r.statusCode = 409 then (0, offset0, some .offsetsNotSynced, u)
  else if r.statusCode = 403 then (0, offset0, some .cannotUpload, u)
  else if r.statusCode = 404 ∨ r.statusCode = 410 then
    (0, offset0, some .uploadDoesNotExist, u)
  else if r.statusCode = 413 then (0, offset0, some .uploadTooLarge, u)
  else if r.statusCode = 460 ∧ checksumEnabled then
    (0, offset0, some .checksumMismatch, u)
  else (0, offset0, some .unexpectedResponse, u)

/-- The 412 interception of `Client.tusRequest` as called by the stream
(the `Upload`-based client): a 412 Precondition Failed response is turned
into a protocol error citing the server's `Tus-Version` header before the
caller sees the status. -/
def tusRequestCheck (r : Response) : Option UErr :=
  if r.statusCode = 412 then some (.versionMismatch412 r.tusVersion) else none

/-- Embedding of `UploadStream.Upload(data, buf)` (stream.go).  `src` is the
byte count of the `data` reader, `buf` the length of the chunk buffer
(`none` in streamed mode), `resps` the response script.  Follows the source
step by step: validate; chunk sizing with early return on a filled upload or
an empty source; `io.ReadAtLeast` into the buffer; the streamed-checksum
`checksum-trailer` extension check; sending; the 412 interception; and the
status switch. -/
def streamUpload (cfg : StreamConfig) (u : Upload) (src : Nat)
    (buf : Option Nat) (resps : List Response) : PatchOutcome :=
  match validate cfg u with
  | .panicked =>
      { bytesUploaded := 0, offset := u.remoteOffset, response := none,
        err := none, upload := u, responses := resps, srcAvail := src,
        panicked := true }
  | .err e =>
      { bytesUploaded := 0, offset := u.remoteOffset, response := none,
        err := some e, upload := u, responses := resps, srcAvail := src,
        panicked := false }
  | .ok =>
    let offset := u.remoteOffset
    match buf with
    | some bufLen =>
        let btu0 : Int := bufLen
        let left := u.remoteSize - offset
        let btu1 := if btu0 > left then left else btu0
        if btu1 = 0 then
          { bytesUploaded := 0, offset := offset, response := none,
            err := none, upload := u, responses := resps, srcAvail := src,
            panicked := false }
        else if btu1 < 0 then
          -- `bytes.NewReader(buf[:bytesToUpload])` with a negative bound panics
          { bytesUploaded := 0, offset := offset, response := none,
            err := none, upload := u, responses := resps, srcAvail := src,
            panicked := true }
        else
          let ra := readAtLeast src bufLen btu1
          match ra.2.1 with
          | .eofErr =>
              { bytesUploaded := 0, offset := offset, response := none,
                err := none, upload := u, responses := resps,
                srcAvail := ra.2.2, panicked := false }
          | .unexpectedEOF =>
              streamUploadSend cfg u offset (ra.1 : Int) ra.2.2 resps
          | .noErr =>
              streamUploadSend cfg u offset btu1 ra.2.2 resps
    | none =>
        if cfg.checksumEnabled ∧ "checksum-trailer" ∉ cfg.extensions then
          { bytesUploaded := 0, offset := offset, response := none,
            err := some (.unsupportedFeature "checksum-trailer"), upload := u,
            responses := resps, srcAvail := src, panicked := false }
        else
          -- streamed mode: the transport drains the source; `Content-Length`
          -- is never set, so the `ContentLength` field keeps its default 0
          streamUploadSendStreamed cfg u offset resps
where
  /-- Chunked send: `Content-Length` is set to `btu`, one response is
  consumed, the 412 interception runs, then the status switch. -/
  streamUploadSend (cfg : StreamConfig) (u : Upload) (offset btu : Int)
      (srcAfter : Nat) (resps : List Response) : PatchOutcome :=
    match resps with
    | [] =>
        { bytesUploaded := 0, offset := offset, response := none,
          err := some .transport, upload := u, responses := [],
          srcAvail := srcAfter, panicked := false }
    | r :: rest =>
        match tusRequestCheck r with
        | some e =>
            { bytesUploaded := 0, offset := offset, response := some r,
              err := some e, upload := u, responses := rest,
              srcAvail := srcAfter, panicked := false }
        | none =>
            let h := handleResponse cfg.checksumEnabled offset btu u r
            { bytesUploaded := h.1, offset := h.2.1, response := some r,
              err := h.2.2.1, upload := h.2.2.2, responses := rest,
              srcAvail := srcAfter, panicked := false }
  /-- Streamed send: the whole source is the request body; `ContentLength`
  retains its default 0, which the 204 branch then reports. -/
  streamUploadSendStreamed (cfg : StreamConfig) (u : Upload) (offset : Int)
      (resps : List Response) : PatchOutcome :=
    match resps with
    | [] =>
        { bytesUploaded := 0, offset := offset, response := none,
          err := some .transport, upload := u, responses := [],
          srcAvail := 0, panicked := false }
    | r :: rest =>
        match tusRequestCheck r with
        | some e =>
            { bytesUploaded := 0, offset := offset, response := some r,
              err := some e, upload := u, responses := rest,
              srcAvail := 0, panicked := false }
        | none =>
            let h := handleResponse cfg.checksumEnabled offset 0 u r
            { bytesUploaded := h.1, offset := h.2.1, response := some r,
              err := h.2.2.1, upload := h.2.2.2, responses := rest,
              srcAvail := 0, panicked := false }

/-- Result of `uploadWithDirtyBuffer`: the byte count returned to the loop,
the error, and the updated stream state. -/
structure DirtyOutcome where
  uploaded : Int
  err : Option UErr
  upload : Upload
  response : Option Response
  responses : List Response
  srcAvail : Nat
  panicked : Bool
deriving DecidableEq, Repr

/-- Embedding of `UploadStream.uploadWithDirtyBuffer(r)` (stream.go): calls
`Upload` with the dirty buffer, then — unless `Upload` itself failed —
requires the returned offset to move strictly forward, recording a protocol
error otherwise, and in either case stores the returned offset into
`Upload.RemoteOffset`. -/
def uploadWithDirtyBuffer (cfg : StreamConfig) (u : Upload) (src : Nat)
    (dirty : Option Nat) (resps : List Response) : DirtyOutcome :=
  let o := streamUpload cfg u src dirty resps
  if o.panicked then
    { uploaded := o.bytesUploaded, err := o.err, upload := o.upload,
      response := o.response, responses := o.responses, srcAvail := o.srcAvail,
      panicked := true }
  else
    match o.err with
    | some e =>
        { uploaded := o.bytesUploaded, err := some e, upload := o.upload,
          response := o.response, responses := o.responses,
          srcAvail := o.srcAvail, panicked := false }
    | none =>
        if o.offset ≤ u.remoteOffset then
          { uploaded := o.bytesUploaded,
            err := some (.offsetNotMoved u.remoteOffset o.offset),
            upload := { o.upload with remoteOffset := o.offset },
            response := o.response, responses := o.responses,
            srcAvail := o.srcAvail, panicked := false }
        else
          { uploaded := o.bytesUploaded, err := none,
            upload := { o.upload with remoteOffset := o.offset },
            response := o.response, responses := o.responses,
            srcAvail := o.srcAvail, panicked := false }

/-- State threaded through the `for uploaded == us.ChunkSize` loops of
`ReadFrom` and `Write`. -/
structure LoopState where
  n : Int
  err : Option UErr
  upload : Upload
  responses : List Response
  srcAvail : Nat
  panicked : Bool
deriving DecidableEq, Repr

/-- The shared upload loop of `ReadFrom` and `Write` (stream.go):
repeatedly call `uploadWithDirtyBuffer`, returning on error, accumulating
the byte count, and continuing while the last call moved exactly
`ChunkSize` bytes.  Each continuing iteration consumes a response, so
`fuel = resps.length + 1` is always sufficient. -/
def uploadLoop (cfg : StreamConfig) (buf : Option Nat) :
    Nat → Upload → Nat → List Response → Int → LoopState
  | 0, u, src, resps, n =>
      { n := n, err := none, upload := u, responses := resps,
        srcAvail := src, panicked := false }
  | fuel + 1, u, src, resps, n =>
      let o := uploadWithDirtyBuffer cfg u src buf resps
      if o.panicked then
        { n := n, err := o.err, upload := o.upload, responses := o.responses,
          srcAvail := o.srcAvail, panicked := true }
      else
        match o.err with
        | some e =>
            { n := n, err := some e, upload := o.upload,
              responses := o.responses, srcAvail := o.srcAvail,
              panicked := false }
        | none =>
            if o.uploaded = cfg.chunkSize then
              uploadLoop cfg buf fuel o.upload o.srcAvail o.responses
                (n + o.uploaded)
            else
              { n := n + o.uploaded, err := none, upload := o.upload,
                responses := o.responses, srcAvail := o.srcAvail,
                panicked := false }

/-- Result of `ReadFrom`/`Write`: the byte count, error, updated upload,
the dirty buffer on return, unconsumed responses and source bytes. -/
structure TransferResult where
  n : Int
  err : Option UErr
  upload : Upload
  dirty : Option Nat
  responses : List Response
  srcAvail : Nat
  panicked : Bool
deriving DecidableEq, Repr

/-- Embedding of `UploadStream.ReadFrom(r)` (stream.go): validate; if the
stream is dirty, re-send the dirty buffer first (reading from the buffer
itself, not from `r`), keeping the buffer allocated only when its length
still equals `ChunkSize`; allocate a dirty buffer in chunked mode; run the
upload loop on `r`; and clear the dirty buffer on a fully successful run
(on error the stream stays dirty). -/
def readFrom (cfg : StreamConfig) (u : Upload) (dirty : Option Nat)
    (src : Nat) (resps : List Response) : TransferResult :=
  match validate cfg u with
  | .panicked =>
      { n := 0, err := none, upload := u, dirty := dirty, responses := resps,
        srcAvail := src, panicked := true }
  | .err e =>
      { n := 0, err := some e, upload := u, dirty := dirty,
        responses := resps, srcAvail := src, panicked := false }
  | .ok =>
    match dirty with
    | some dl =>
        let o := uploadWithDirtyBuffer cfg u dl (some dl) resps
        if o.panicked then
          { n := 0, err := o.err, upload := o.upload, dirty := some dl,
            responses := o.responses, srcAvail := src, panicked := true }
        else
          match o.err with
          | some e =>
              { n := 0, err := some e, upload := o.upload, dirty := some dl,
                responses := o.responses, srcAvail := src, panicked := false }
          | none =>
              let dirty2 : Option Nat :=
                if cfg.chunkSize = 0 ∨ (dl : Int) ≠ cfg.chunkSize then none
                else some dl
              readFromLoopPart cfg o.upload dirty2 src o.responses
    | none => readFromLoopPart cfg u none src resps
where
  /-- The tail of `ReadFrom` after the dirty-buffer re-send: allocate the
  dirty buffer in chunked mode, loop, clear the buffer on clean exit. -/
  readFromLoopPart (cfg : StreamConfig) (u : Upload) (dirty : Option Nat)
      (src : Nat) (resps : List Response) : TransferResult :=
    let dirty3 : Option Nat :=
      if cfg.chunkSize ≠ 0 ∧ dirty = none then some cfg.chunkSize.toNat
      else dirty
    let l := uploadLoop cfg dirty3 (resps.length + 1) u src resps 0
    if l.panicked then
      { n := l.n, err := l.err, upload := l.upload, dirty := dirty3,
        responses := l.responses, srcAvail := l.srcAvail, panicked := true }
    else
      match l.err with
      | some e =>
          { n := l.n, err := some e, upload := l.upload, dirty := dirty3,
            responses := l.responses, srcAvail := l.srcAvail,
            panicked := false }
      | none =>
          { n := l.n, err := none, upload := l.upload, dirty := none,
            responses := l.responses, srcAvail := l.srcAvail,
            panicked := false }

/-- Embedding of `UploadStream.Write(p)` before the final short-write
check: validate; in chunked mode allocate a dirty buffer and (via `defer`)
always discard it on return; run the upload loop over a `bytes.Reader` on
`p` (`pLen` bytes). -/
def writeCore (cfg : StreamConfig) (u : Upload) (dirty : Option Nat)
    (pLen : Nat) (resps : List Response) : TransferResult :=
  match validate cfg u with
  | .panicked =>
      { n := 0, err := none, upload := u, dirty := dirty, responses := resps,
        srcAvail := pLen, panicked := true }
  | .err e =>
      { n := 0, err := some e, upload := u, dirty := dirty,
        responses := resps, srcAvail := pLen, panicked := false }
  | .ok =>
    let chunked := 0 < cfg.chunkSize
    let dirty1 : Option Nat := if chunked then some cfg.chunkSize.toNat else dirty
    let l := uploadLoop cfg dirty1 (resps.length + 1) u pLen resps 0
    { n := l.n, err := l.err, upload := l.upload,
      dirty := if chunked then none else dirty1,
      responses := l.responses, srcAvail := l.srcAvail,
      panicked := l.panicked }

/-- Embedding of `UploadStream.Write(p)` (stream.go): `writeCore` followed
by `if n != len(p) && err == nil { err = io.ErrShortWrite }`. -/
def write (cfg : StreamConfig) (u : Upload) (dirty : Option Nat)
    (pLen : Nat) (resps : List Response) : TransferResult :=
  let c := writeCore cfg u dirty pLen resps
  if c.n ≠ (pLen : Int) ∧ c.err = none ∧ c.panicked = false then
    { c with err := some .shortWrite }
  else c

/-- The `whence` argument of `Seek`. -/
inductive Whence where
  | seekStart
  | seekCurrent
  | seekEnd
deriving DecidableEq, Repr

/-- Embedding of `UploadStream.Seek(offset, whence)` (stream.go): computes
the new position from `whence`, then validates the *argument* `offset`
(not the computed position) against the upload size and zero, and updates
`RemoteOffset` only when both checks pass.  Returns the computed position,
the error, and the resulting upload record. -/
def seek (u : Upload) (offset : Int) (w : Whence) : Int × Option UErr × Upload :=
  let newOffset :=
    match w with
    | .seekStart => offset
    | .seekCurrent => u.remoteOffset + offset
    | .seekEnd => u.remoteSize - 1 + offset
  if offset ≥ u.remoteSize then
    (newOffset, some (.seekExceedsSize newOffset u.remoteSize), u)
  else if offset < 0 then
    (newOffset, some (.seekNegative newOffset), u)
  else
    (newOffset, none, { u with remoteOffset := newOffset })

theorem tusRequestCheck_none (r : Response) (h : r.statusCode ≠ 412) :
    tusRequestCheck r = none := by
  simp [tusRequestCheck, h]

theorem tusRequestCheck_412 (r : Response) (h : r.statusCode = 412) :
    tusRequestCheck r = some (.versionMismatch412 r.tusVersion) := by
  simp [tusRequestCheck, h]

/-- Characterization of a chunked send that consumed a response `r`. -/
theorem send_sent (cfg : StreamConfig) (u : Upload) (offset btu : Int)
    (srcAfter : Nat) (resps : List Response) (r : Response)
    (h : (streamUpload.streamUploadSend cfg u offset btu srcAfter resps).response
          = some r) :
    (streamUpload.streamUploadSend cfg u offset btu srcAfter resps).panicked
        = false ∧
    (r.statusCode = 412 →
      (streamUpload.streamUploadSend cfg u offset btu srcAfter resps).err =
        some (.versionMismatch412 r.tusVersion)) ∧
    (r.statusCode ≠ 412 → ∃ cl,
      (streamUpload.streamUploadSend cfg u offset btu srcAfter resps).bytesUploaded
          = (handleResponse cfg.checksumEnabled offset cl u r).1 ∧
      (streamUpload.streamUploadSend cfg u offset btu srcAfter resps).offset
          = (handleResponse cfg.checksumEnabled offset cl u r).2.1 ∧
      (streamUpload.streamUploadSend cfg u offset btu srcAfter resps).err
          = (handleResponse cfg.checksumEnabled offset cl u r).2.2.1 ∧
      (streamUpload.streamUploadSend cfg u offset btu srcAfter resps).upload
          = (handleResponse cfg.checksumEnabled offset cl u r).2.2.2) := by
  unfold streamUpload.streamUploadSend at h ⊢
  cases resps with
  | nil => simp at h
  | cons r' rest =>
    cases hc : tusRequestCheck r' with
    | some e =>
      simp only [hc, Option.some.injEq] at h ⊢
      rw [← h]
      refine ⟨by trivial, fun h412 => ?_, fun h412 => ?_⟩
      · rw [tusRequestCheck_412 _ h412] at hc
        simp only [Option.some.injEq] at hc
        simp [← hc]
      · rw [tusRequestCheck_none _ h412] at hc
        cases hc
    | none =>
      simp only [hc, Option.some.injEq] at h ⊢
      rw [← h]
      have h412 : r'.statusCode ≠ 412 := fun hh => by
        rw [tusRequestCheck_412 _ hh] at hc; cases hc
      exact ⟨by trivial, fun hh => absurd hh h412,
        fun _ => ⟨btu, by trivial, by trivial, by trivial, by trivial⟩⟩

/-- Characterization of a streamed send that consumed a response `r`. -/
theorem sendStreamed_sent (cfg : StreamConfig) (u : Upload) (offset : Int)
    (resps : List Response) (r : Response)
    (h : (streamUpload.streamUploadSendStreamed cfg u offset resps).response
          = some r) :
    (streamUpload.streamUploadSendStreamed cfg u offset resps).panicked
        = false ∧
    (r.statusCode = 412 →
      (streamUpload.streamUploadSendStreamed cfg u offset resps).err =
        some (.versionMismatch412 r.tusVersion)) ∧
    (r.statusCode ≠ 412 → ∃ cl,
      (streamUpload.streamUploadSendStreamed cfg u offset resps).bytesUploaded
          = (handleResponse cfg.checksumEnabled offset cl u r).1 ∧
      (streamUpload.streamUploadSendStreamed cfg u offset resps).offset
          = (handleResponse cfg.checksumEnabled offset cl u r).2.1 ∧
      (streamUpload.streamUploadSendStreamed cfg u offset resps).err
          = (handleResponse cfg.checksumEnabled offset cl u r).2.2.1 ∧
      (streamUpload.streamUploadSendStreamed cfg u offset resps).upload
          = (handleResponse cfg.checksumEnabled offset cl u r).2.2.2) := by
  unfold streamUpload.streamUploadSendStreamed at h ⊢
  cases resps with
  | nil => simp at h
  | cons r' rest =>
    cases hc : tusRequestCheck r' with
    | some e =>
      simp only [hc, Option.some.injEq] at h ⊢
      rw [← h]
      refine ⟨by trivial, fun h412 => ?_, fun h412 => ?_⟩
      · rw [tusRequestCheck_412 _ h412] at hc
        simp only [Option.some.injEq] at hc
        simp [← hc]
      · rw [tusRequestCheck_none _ h412] at hc
        cases hc
    | none =>
      simp only [hc, Option.some.injEq] at h ⊢
      rw [← h]
      have h412 : r'.statusCode ≠ 412 := fun hh => by
        rw [tusRequestCheck_412 _ hh] at hc; cases hc
      exact ⟨by trivial, fun hh => absurd hh h412,
        fun _ => ⟨0, by trivial, by trivial, by trivial, by trivial⟩⟩

/-- Characterization of a `streamUpload` call that actually consumed a
response `r`: the call did not panic; a 412 was intercepted by `tusRequest`;
and any other status was handled by the status switch for some request
`ContentLength` value `cl`. -/
theorem streamUpload_sent (cfg : StreamConfig) (u : Upload) (src : Nat)
    (buf : Option Nat) (resps : List Response) (r : Response)
    (h : (streamUpload cfg u src buf resps).response = some r) :
    (streamUpload cfg u src buf resps).panicked = false ∧
    (r.statusCode = 412 →
      (streamUpload cfg u src buf resps).err =
        some (.versionMismatch412 r.tusVersion)) ∧
    (r.statusCode ≠ 412 → ∃ cl,
      (streamUpload cfg u src buf resps).bytesUploaded =
          (handleResponse cfg.checksumEnabled u.remoteOffset cl u r).1 ∧
      (streamUpload cfg u src buf resps).offset =
          (handleResponse cfg.checksumEnabled u.remoteOffset cl u r).2.1 ∧
      (streamUpload cfg u src buf resps).err =
          (handleResponse cfg.checksumEnabled u.remoteOffset cl u r).2.2.1 ∧
      (streamUpload cfg u src buf resps).upload =
          (handleResponse cfg.checksumEnabled u.remoteOffset cl u r).2.2.2) := by
  unfold streamUpload at h ⊢
  cases hval : validate cfg u with
  | panicked => simp [hval] at h
  | err e => simp [hval] at h
  | ok =>
    simp only [hval] at h ⊢
    cases buf with
    | some bufLen =>
      dsimp only at h ⊢
      by_cases h0 :
          (if (bufLen : Int) > u.remoteSize - u.remoteOffset then
            u.remoteSize - u.remoteOffset else (bufLen : Int)) = 0
      · rw [if_pos h0] at h; simp at h
      · rw [if_neg h0] at h ⊢
        by_cases hneg :
            (if (bufLen : Int) > u.remoteSize - u.remoteOffset then
              u.remoteSize - u.remoteOffset else (bufLen : Int)) < 0
        · rw [if_pos hneg] at h; simp at h
        · rw [if_neg hneg] at h ⊢
          cases hre : (readAtLeast src bufLen
              (if (bufLen : Int) > u.remoteSize - u.remoteOffset then
                u.remoteSize - u.remoteOffset else (bufLen : Int))).2.1 with
          | noErr =>
            simp only [hre] at h ⊢
            exact send_sent cfg u u.remoteOffset _ _ resps r h
          | eofErr => simp only [hre] at h; simp at h
          | unexpectedEOF =>
            simp only [hre] at h ⊢
            exact send_sent cfg u u.remoteOffset _ _ resps r h
    | none =>
      dsimp only at h ⊢
      by_cases hck :
          cfg.checksumEnabled = true ∧ "checksum-trailer" ∉ cfg.extensions
      · rw [if_pos hck] at h; simp at h
      · rw [if_neg hck] at h ⊢
        exact sendStreamed_sent cfg u u.remoteOffset resps r h

/-- On a 204 with a parseable `Upload-Offset` and an absent or well-formed
`Upload-Expires`, the status switch reports no error, returns the parsed
offset, and leaves `RemoteOffset` untouched (only `uploadExpired` may be
updated). -/
theorem handleResponse_204 (c : Bool) (offset0 cl : Int) (u : Upload)
    (r : Response) (v : Int) (h204 : r.statusCode = 204)
    (hoff : parseIntStr r.uploadOffset = some v)
    (hexp : r.uploadExpires ≠ some none) :
    (handleResponse c offset0 cl u r).1 = cl ∧
    (handleResponse c offset0 cl u r).2.1 = v ∧
    (handleResponse c offset0 cl u r).2.2.1 = none ∧
    (handleResponse c offset0 cl u r).2.2.2.remoteOffset = u.remoteOffset := by
  unfold handleResponse
  rw [if_pos h204, hoff]
  cases hexpv : r.uploadExpires with
  | none => exact ⟨rfl, rfl, rfl, rfl⟩
  | some t =>
    cases t with
    | none => exact absurd hexpv hexp
    | some tv => exact ⟨rfl, rfl, rfl, rfl⟩

theorem uploadWithDirtyBuffer_response_eq (cfg : StreamConfig) (u : Upload)
    (src : Nat) (dirty : Option Nat) (resps : List Response) :
    (uploadWithDirtyBuffer cfg u src dirty resps).response =
      (streamUpload cfg u src dirty resps).response := by
  unfold uploadWithDirtyBuffer
  dsimp only
  split
  · rfl
  · split
    · rfl
    · split <;> rfl

/-- Claim C1: for every PATCH actually performed by `uploadWithDirtyBuffer`
(the primitive behind both chunked and streamed transfers), if the request
succeeded with HTTP 204 and the `Upload-Offset` header parses to `v` (and
`Upload-Expires`, when present, is well formed), then the call succeeds
exactly when `v` strictly exceeds the pre-request `RemoteOffset`, in which
case `RemoteOffset` is updated to `v`; when `v` is not strictly greater the
call fails with an error wrapping the protocol error. -/
theorem uploadWithDirtyBuffer_offset_advance (cfg : StreamConfig)
    (u : Upload) (src : Nat) (dirty : Option Nat) (resps : List Response)
    (r : Response) (v : Int)
    (hres : (uploadWithDirtyBuffer cfg u src dirty resps).response = some r)
    (h204 : r.statusCode = 204)
    (hoff : parseIntStr r.uploadOffset = some v)
    (hexp : r.uploadExpires ≠ some none) :
    ((uploadWithDirtyBuffer cfg u src dirty resps).err = none ↔
        u.remoteOffset < v) ∧
    (u.remoteOffset < v →
        (uploadWithDirtyBuffer cfg u src dirty resps).upload.remoteOffset = v) ∧
    (v ≤ u.remoteOffset → ∃ e,
        (uploadWithDirtyBuffer cfg u src dirty resps).err = some e ∧
        e.isProtocol = true) := by
  have hresS : (streamUpload cfg u src dirty resps).response = some r := by
    rw [← uploadWithDirtyBuffer_response_eq]; exact hres
  obtain ⟨hpan, -, hfields⟩ :=
    streamUpload_sent cfg u src dirty resps r hresS
  obtain ⟨cl, -, hoffEq, herrEq, huplEq⟩ := hfields (by omega)
  obtain ⟨-, hv, hne, hro⟩ :=
    handleResponse_204 cfg.checksumEnabled u.remoteOffset cl u r v h204 hoff hexp
  unfold uploadWithDirtyBuffer
  dsimp only
  rw [hpan]
  simp only [Bool.false_eq_true, if_false]
  rw [herrEq, hne]
  dsimp only
  rw [hoffEq, hv]
  by_cases hle : v ≤ u.remoteOffset
  · rw [if_pos hle]
    refine ⟨?_, fun hh => absurd hh (by omega), fun _ =>
      ⟨.offsetNotMoved u.remoteOffset v, rfl, rfl⟩⟩
    constructor
    · intro hh; cases hh
    · intro hh; omega
  · rw [if_neg hle]
    refine ⟨⟨fun _ => by omega, fun _ => rfl⟩, fun _ => rfl, fun hh => ?_⟩
    omega

/-- Witness for `uploadWithDirtyBuffer_offset_advance`: a concrete 204
response advancing the offset from 0 to 100 yields a successful call. -/
theorem uploadWithDirtyBuffer_offset_advance_witness :
    (uploadWithDirtyBuffer ⟨256, false, false, []⟩ ⟨0, 1024, none⟩ 300
      (some 256) [⟨204, "100", none, "1.0.0", "", ""⟩]).err = none :=
  (uploadWithDirtyBuffer_offset_advance ⟨256, false, false, []⟩
    ⟨0, 1024, none⟩ 300 (some 256) [⟨204, "100", none, "1.0.0", "", ""⟩]
    ⟨204, "100", none, "1.0.0", "", ""⟩ 100
    (by decide) rfl (by decide) (by decide)).1.mpr (by decide)

/-- Claim C10: when a performed PATCH receives a 204 whose `Upload-Offset`
parses to a value `v` not strictly greater than the current `RemoteOffset`
(and `Upload-Expires`, when present, is well formed),
`uploadWithDirtyBuffer` reports the offset-did-not-move-forward protocol
error but nevertheless overwrites `Upload.RemoteOffset` with `v` — the
stored offset is not left unchanged on this error path and can move
backwards. -/
theorem uploadWithDirtyBuffer_error_path_overwrites (cfg : StreamConfig)
    (u : Upload) (src : Nat) (dirty : Option Nat) (resps : List Response)
    (r : Response) (v : Int)
    (hres : (uploadWithDirtyBuffer cfg u src dirty resps).response = some r)
    (h204 : r.statusCode = 204)
    (hoff : parseIntStr r.uploadOffset = some v)
    (hexp : r.uploadExpires ≠ some none)
    (hle : v ≤ u.remoteOffset) :
    (uploadWithDirtyBuffer cfg u src dirty resps).err =
        some (.offsetNotMoved u.remoteOffset v) ∧
    (uploadWithDirtyBuffer cfg u src dirty resps).upload.remoteOffset = v := by
  have hresS : (streamUpload cfg u src dirty resps).response = some r := by
    rw [← uploadWithDirtyBuffer_response_eq]; exact hres
  obtain ⟨hpan, -, hfields⟩ :=
    streamUpload_sent cfg u src dirty resps r hresS
  obtain ⟨cl, -, hoffEq, herrEq, huplEq⟩ := hfields (by omega)
  obtain ⟨-, hv, hne, hro⟩ :=
    handleResponse_204 cfg.checksumEnabled u.remoteOffset cl u r v h204 hoff hexp
  unfold uploadWithDirtyBuffer
  dsimp only
  rw [hpan]
  simp only [Bool.false_eq_true, if_false]
  rw [herrEq, hne]
  dsimp only
  rw [hoffEq, hv, if_pos hle]
  exact ⟨rfl, rfl⟩

/-- Witness for `uploadWithDirtyBuffer_error_path_overwrites`: a server
that answers 204 with `Upload-Offset: 50` while the local offset is 100
makes the call fail, yet the local offset moves backwards to 50. -/
theorem uploadWithDirtyBuffer_error_path_overwrites_witness :
    (uploadWithDirtyBuffer ⟨256, false, false, []⟩ ⟨100, 1024, none⟩ 300
        (some 256) [⟨204, "50", none, "1.0.0", "", ""⟩]).err =
      some (.offsetNotMoved 100 50) ∧
    (uploadWithDirtyBuffer ⟨256, false, false, []⟩ ⟨100, 1024, none⟩ 300
        (some 256) [⟨204, "50", none, "1.0.0", "", ""⟩]).upload.remoteOffset
      = 50 :=
  uploadWithDirtyBuffer_error_path_overwrites ⟨256, false, false, []⟩
    ⟨100, 1024, none⟩ 300 (some 256) [⟨204, "50", none, "1.0.0", "", ""⟩]
    ⟨204, "50", none, "1.0.0", "", ""⟩ 50
    (by decide) rfl (by decide) (by decide) (by decide)

/-- Counterexample to claim C2 as stated: a PATCH answered with HTTP 412
(which is neither 204 nor any status of the taxonomy table) does not yield
the *unexpected response* error — the common request wrapper intercepts it
first and produces the protocol-version error citing `Tus-Version`. -/
theorem streamUpload_412_not_unexpected :
    (streamUpload ⟨256, false, false, []⟩ ⟨0, 1024, none⟩ 300 (some 256)
        [⟨412, "", none, "", "1.0.1,0.9.0", ""⟩]).response =
      some ⟨412, "", none, "", "1.0.1,0.9.0", ""⟩ ∧
    (streamUpload ⟨256, false, false, []⟩ ⟨0, 1024, none⟩ 300 (some 256)
        [⟨412, "", none, "", "1.0.1,0.9.0", ""⟩]).err =
      some (.versionMismatch412 "1.0.1,0.9.0") ∧
    (streamUpload ⟨256, false, false, []⟩ ⟨0, 1024, none⟩ 300 (some 256)
        [⟨412, "", none, "", "1.0.1,0.9.0", ""⟩]).err ≠
      some .unexpectedResponse := by
  refine ⟨rfl, rfl, by decide⟩

/-- Claim C2 (amended): for every PATCH actually performed whose response
status is not 204, `Upload` returns exactly the taxonomy error: 409 yields
*offsets not synced*, 403 *cannot upload*, 404 and 410 *upload does not
exist*, 413 *upload too large*, 460 *checksum mismatch* iff a checksum
algorithm is enabled and otherwise *unexpected response*; 412 — intercepted
by the common request wrapper — yields the protocol-version error; and
every other status yields *unexpected response*. -/
theorem streamUpload_status_taxonomy (cfg : StreamConfig) (u : Upload)
    (src : Nat) (buf : Option Nat) (resps : List Response) (r : Response)
    (hres : (streamUpload cfg u src buf resps).response = some r)
    (h204 : r.statusCode ≠ 204) :
    (r.statusCode = 409 →
      (streamUpload cfg u src buf resps).err = some .offsetsNotSynced) ∧
    (r.statusCode = 403 →
      (streamUpload cfg u src buf resps).err = some .cannotUpload) ∧
    (r.statusCode = 404 ∨ r.statusCode = 410 →
      (streamUpload cfg u src buf resps).err = some .uploadDoesNotExist) ∧
    (r.statusCode = 413 →
      (streamUpload cfg u src buf resps).err = some .uploadTooLarge) ∧
    (r.statusCode = 460 →
      (streamUpload cfg u src buf resps).err =
        some (if cfg.checksumEnabled then .checksumMismatch
              else .unexpectedResponse)) ∧
    (r.statusCode = 412 →
      (streamUpload cfg u src buf resps).err =
        some (.versionMismatch412 r.tusVersion)) ∧
    (r.statusCode ∉ [204, 409, 403, 404, 410, 413, 460, 412] →
      (streamUpload cfg u src buf resps).err = some .unexpectedResponse) := by
  obtain ⟨hpan, h412, hfields⟩ := streamUpload_sent cfg u src buf resps r hres
  by_cases hc412 : r.statusCode = 412
  · refine ⟨fun hh => by omega, fun hh => by omega, fun hh => by omega,
      fun hh => by omega, fun hh => by omega, fun _ => h412 hc412,
      fun hh => absurd (show r.statusCode ∈ _ by simp [hc412]) hh⟩
  obtain ⟨cl, -, -, herrEq, -⟩ := hfields hc412
  rw [herrEq]
  unfold handleResponse
  rw [if_neg h204]
  refine ⟨fun hh => ?_, fun hh => ?_, fun hh => ?_, fun hh => ?_,
    fun hh => ?_, fun hh => absurd hh hc412, fun hh => ?_⟩
  · rw [if_pos hh]
  · rw [if_neg (by omega), if_pos hh]
  · rw [if_neg (by omega), if_neg (by omega), if_pos hh]
  · rw [if_neg (by omega), if_neg (by omega), if_neg (by omega), if_pos hh]
  · rw [if_neg (by omega), if_neg (by omega), if_neg (by omega),
      if_neg (by omega)]
    cases hce : cfg.checksumEnabled with
    | true => rw [if_pos ⟨hh, rfl⟩]; simp
    | false =>
      rw [if_neg (by simp [hh])]
      simp
  · rw [if_neg (fun hc => hh (by simp [hc])),
      if_neg (fun hc => hh (by simp [hc])),
      if_neg (fun hc => hh (by rcases hc with hc | hc <;> simp [hc])),
      if_neg (fun hc => hh (by simp [hc])),
      if_neg (fun hc => hh (by simp [hc.1]))]

/-- Witness for `streamUpload_status_taxonomy`: a 409 response to a
concrete PATCH yields the *offsets not synced* error. -/
theorem streamUpload_status_taxonomy_witness :
    (streamUpload ⟨256, false, false, []⟩ ⟨0, 1024, none⟩ 300 (some 256)
        [⟨409, "", none, "1.0.0", "", ""⟩]).err = some .offsetsNotSynced :=
  (streamUpload_status_taxonomy ⟨256, false, false, []⟩ ⟨0, 1024, none⟩ 300
    (some 256) [⟨409, "", none, "1.0.0", "", ""⟩]
    ⟨409, "", none, "1.0.0", "", ""⟩ (by decide) (by decide)).1 rfl

/-- Claim C3, evaluated at the failing input: upload of size 1024 at
offset 0, chunk size 256, a 1024-byte source, and the response script
204 (offset 256), 204 (offset 512), 500.  `ReadFrom` draws 768 bytes from
the source (three chunks are read, the third PATCH then fails) but returns
512 — only the server-acknowledged bytes — contradicting the claim (and the
repository's own test suite, which expects 768 from this run), while the
stream is left dirty at offset 512 with the *unexpected response* error. -/
theorem readFrom_count_drawn_divergence :
    (readFrom ⟨256, false, false, []⟩ ⟨0, 1024, none⟩ none 1024
        [⟨204, "256", none, "1.0.0", "", ""⟩,
         ⟨204, "512", none, "1.0.0", "", ""⟩,
         ⟨500, "", none, "1.0.0", "", ""⟩]).n = 512 ∧
    (readFrom ⟨256, false, false, []⟩ ⟨0, 1024, none⟩ none 1024
        [⟨204, "256", none, "1.0.0", "", ""⟩,
         ⟨204, "512", none, "1.0.0", "", ""⟩,
         ⟨500, "", none, "1.0.0", "", ""⟩]).srcAvail = 256 ∧
    (readFrom ⟨256, false, false, []⟩ ⟨0, 1024, none⟩ none 1024
        [⟨204, "256", none, "1.0.0", "", ""⟩,
         ⟨204, "512", none, "1.0.0", "", ""⟩,
         ⟨500, "", none, "1.0.0", "", ""⟩]).err = some .unexpectedResponse ∧
    (readFrom ⟨256, false, false, []⟩ ⟨0, 1024, none⟩ none 1024
        [⟨204, "256", none, "1.0.0", "", ""⟩,
         ⟨204, "512", none, "1.0.0", "", ""⟩,
         ⟨500, "", none, "1.0.0", "", ""⟩]).upload.remoteOffset = 512 ∧
    (readFrom ⟨256, false, false, []⟩ ⟨0, 1024, none⟩ none 1024
        [⟨204, "256", none, "1.0.0", "", ""⟩,
         ⟨204, "512", none, "1.0.0", "", ""⟩,
         ⟨500, "", none, "1.0.0", "", ""⟩]).dirty = some 256 ∧
    (1024 : Int) - 256 ≠ 512 := by
  refine ⟨rfl, rfl, rfl, rfl, rfl, by decide⟩

theorem validate_ok_bounds (cfg : StreamConfig) (u : Upload)
    (h : validate cfg u = .ok) : 0 ≤ u.remoteSize ∧ 0 ≤ cfg.chunkSize := by
  unfold validate at h
  split_ifs at h
  constructor <;> omega

theorem write_dirty_eq (cfg : StreamConfig) (u : Upload)
    (dirty : Option Nat) (pLen : Nat) (resps : List Response) :
    (write cfg u dirty pLen resps).dirty =
      (writeCore cfg u dirty pLen resps).dirty := by
  unfold write
  dsimp only
  split <;> rfl

/-- Claim C4: for every byte slice `p` (of length `pLen`), when `Write`
returns `n < len(p)` with no other error it returns the *short write*
error; and on return from `Write` — error or not — the stream is clean
(no dirty buffer).  The hypotheses restrict to runs in which `validate`
passes (otherwise `Write` returns before the `defer` that clears the
buffer is installed) and to reachable states: a stream in streamed mode
(`ChunkSize = NoChunked`) never carries a dirty buffer. -/
theorem write_short_write_and_clean (cfg : StreamConfig) (u : Upload)
    (dirty : Option Nat) (pLen : Nat) (resps : List Response)
    (hval : validate cfg u = .ok)
    (hstream : cfg.chunkSize = 0 → dirty = none) :
    ((writeCore cfg u dirty pLen resps).err = none →
      (writeCore cfg u dirty pLen resps).panicked = false →
      (writeCore cfg u dirty pLen resps).n < (pLen : Int) →
      (write cfg u dirty pLen resps).err = some .shortWrite) ∧
    ((write cfg u dirty pLen resps).err = none →
      (write cfg u dirty pLen resps).panicked = false →
      (write cfg u dirty pLen resps).n = (pLen : Int)) ∧
    (write cfg u dirty pLen resps).dirty = none := by
  have hchunk : 0 ≤ cfg.chunkSize := (validate_ok_bounds cfg u hval).2
  refine ⟨?_, ?_, ?_⟩
  · intro he hp hlt
    unfold write
    rw [if_pos ⟨by omega, he, hp⟩]
  · intro he hp
    unfold write at he hp ⊢
    by_cases hcnd : (writeCore cfg u dirty pLen resps).n ≠ (pLen : Int) ∧
        (writeCore cfg u dirty pLen resps).err = none ∧
        (writeCore cfg u dirty pLen resps).panicked = false
    · rw [if_pos hcnd] at he
      exact absurd he (by simp)
    · rw [if_neg hcnd] at he hp ⊢
      by_contra hne
      exact hcnd ⟨hne, he, hp⟩
  · rw [write_dirty_eq]
    unfold writeCore
    rw [hval]
    by_cases hpos : 0 < cfg.chunkSize
    · simp only [if_pos hpos]
    · simp only [if_neg hpos]
      exact hstream (by omega)

/-- Witness for `write_short_write_and_clean`: writing 1792 bytes into an
upload with only 744 bytes of remaining space (size 1000, offset 256,
chunk 256, server acknowledging 512, 768 and finally 1000) returns the
*short write* error and leaves the stream clean. -/
theorem write_short_write_and_clean_witness :
    (write ⟨256, false, false, []⟩ ⟨256, 1000, none⟩ none 1792
        [⟨204, "512", none, "1.0.0", "", ""⟩,
         ⟨204, "768", none, "1.0.0", "", ""⟩,
         ⟨204, "1000", none, "1.0.0", "", ""⟩]).err = some .shortWrite ∧
    (write ⟨256, false, false, []⟩ ⟨256, 1000, none⟩ none 1792
        [⟨204, "512", none, "1.0.0", "", ""⟩,
         ⟨204, "768", none, "1.0.0", "", ""⟩,
         ⟨204, "1000", none, "1.0.0", "", ""⟩]).dirty = none :=
  ⟨(write_short_write_and_clean ⟨256, false, false, []⟩ ⟨256, 1000, none⟩
      none 1792
      [⟨204, "512", none, "1.0.0", "", ""⟩,
       ⟨204, "768", none, "1.0.0", "", ""⟩,
       ⟨204, "1000", none, "1.0.0", "", ""⟩]
      (by decide) (by decide)).1 rfl rfl (by decide),
   (write_short_write_and_clean ⟨256, false, false, []⟩ ⟨256, 1000, none⟩
      none 1792
      [⟨204, "512", none, "1.0.0", "", ""⟩,
       ⟨204, "768", none, "1.0.0", "", ""⟩,
       ⟨204, "1000", none, "1.0.0", "", ""⟩]
      (by decide) (by decide)).2.2⟩

/-- Counterexample to claim C9 as stated: on an upload with
`RemoteOffset = 5` and `RemoteSize = 10`, `Seek(7, current)` computes the
position `12`, which is `≥ RemoteSize` and should therefore be an error
with `RemoteOffset` unchanged — but the code validates the *argument*
7 instead, succeeds, and stores `RemoteOffset = 12`. -/
theorem seek_validates_argument_not_result :
    (seek ⟨5, 10, none⟩ 7 .seekCurrent).1 = 12 ∧
    (seek ⟨5, 10, none⟩ 7 .seekCurrent).2.1 = none ∧
    (seek ⟨5, 10, none⟩ 7 .seekCurrent).2.2.remoteOffset = 12 ∧
    ¬((12 : Int) < (10 : Int)) := by
  refine ⟨rfl, rfl, rfl, by decide⟩

/-- Claim C9 (amended): `Seek` computes the new position as `offset` for
start, `RemoteOffset + offset` for current and `RemoteSize − 1 + offset`
for end; the validation, however, is applied to the `offset` *argument*
rather than to the computed position: whenever the argument is negative or
`≥ RemoteSize` an error is returned and `RemoteOffset` is unchanged, and
otherwise `RemoteOffset` is set to the computed position (which for the
current/end whences may lie outside `[0, RemoteSize)`). -/
theorem seek_spec (u : Upload) (offset : Int) (w : Whence) :
    (seek u offset w).1 =
      (match w with
       | .seekStart => offset
       | .seekCurrent => u.remoteOffset + offset
       | .seekEnd => u.remoteSize - 1 + offset) ∧
    (u.remoteSize ≤ offset ∨ offset < 0 →
      (seek u offset w).2.1 ≠ none ∧ (seek u offset w).2.2 = u) ∧
    (0 ≤ offset → offset < u.remoteSize →
      (seek u offset w).2.1 = none ∧
      (seek u offset w).2.2.remoteOffset = (seek u offset w).1) := by
  unfold seek
  by_cases hge : offset ≥ u.remoteSize
  · rw [if_pos hge]
    exact ⟨rfl, fun _ => ⟨by simp, rfl⟩, fun _ hh => absurd hh (by omega)⟩
  · rw [if_neg hge]
    by_cases hneg : offset < 0
    · rw [if_pos hneg]
      exact ⟨rfl, fun _ => ⟨by simp, rfl⟩, fun hh _ => absurd hh (by omega)⟩
    · rw [if_neg hneg]
      exact ⟨rfl, fun hh => absurd hh (by omega), fun _ _ => ⟨rfl, rfl⟩⟩

/-- Witness for `seek_spec`: `Seek(-3, start)` on a size-10 upload errors
and leaves the upload unchanged; `Seek(4, start)` succeeds and stores 4. -/
theorem seek_spec_witness :
    ((seek ⟨5, 10, none⟩ (-3) .seekStart).2.1 ≠ none ∧
      (seek ⟨5, 10, none⟩ (-3) .seekStart).2.2 = ⟨5, 10, none⟩) ∧
    ((seek ⟨5, 10, none⟩ 4 .seekStart).2.1 = none ∧
      (seek ⟨5, 10, none⟩ 4 .seekStart).2.2.remoteOffset =
        (seek ⟨5, 10, none⟩ 4 .seekStart).1) :=
  ⟨(seek_spec ⟨5, 10, none⟩ (-3) .seekStart).2.1 (by decide),
   (seek_spec ⟨5, 10, none⟩ 4 .seekStart).2.2 (by decide) (by decide)⟩

/-- Embedding of `Client.tusRequest` (client.go): before sending, every
non-OPTIONS request without a `Tus-Resumable` header gets
`Tus-Resumable: <ProtocolVersion>`; on the response, a 412 Precondition
Failed becomes a protocol error citing the server's `Tus-Version` header,
and otherwise a response whose `Tus-Resumable` header differs from the
configured protocol version becomes a protocol error.  Returns the
`Tus-Resumable` value carried by the outgoing request and the error. -/
def tusRequest (protocolVersion method reqTusResumable : String)
    (resp : Response) : String × Option UErr :=
  let hdr :=
    if method ≠ "OPTIONS" ∧ reqTusResumable = "" then protocolVersion
    else reqTusResumable
  if resp.statusCode = 412 then
    (hdr, some (.versionMismatch412 resp.tusVersion))
  else if resp.tusResumable ≠ protocolVersion then
    (hdr, some (.versionMismatchResp resp.tusResumable protocolVersion))
  else (hdr, none)

/-- Claim C8: for every non-OPTIONS response processed by the common
request wrapper, a 412 status produces a protocol error citing the
server's `Tus-Version` header, and a response whose `Tus-Resumable` header
disagrees with the configured protocol version produces a protocol error. -/
theorem tusRequest_version_checks (protocolVersion method reqHdr : String)
    (resp : Response) (_hm : method ≠ "OPTIONS") :
    (resp.statusCode = 412 →
      (tusRequest protocolVersion method reqHdr resp).2 =
        some (.versionMismatch412 resp.tusVersion)) ∧
    (resp.tusResumable ≠ protocolVersion → ∃ e,
      (tusRequest protocolVersion method reqHdr resp).2 = some e ∧
      e.isProtocol = true) := by
  unfold tusRequest
  constructor
  · intro h412
    rw [if_pos h412]
  · intro hdis
    by_cases h412 : resp.statusCode = 412
    · rw [if_pos h412]
      exact ⟨.versionMismatch412 resp.tusVersion, rfl, rfl⟩
    · rw [if_neg h412, if_pos hdis]
      exact ⟨.versionMismatchResp resp.tusResumable protocolVersion, rfl, rfl⟩

/-- Witness for `tusRequest_version_checks`: a 412 response to a GET and a
200 response carrying `Tus-Resumable: 0.9.0` against configured version
1.0.0 both produce protocol errors. -/
theorem tusRequest_version_checks_witness :
    (tusRequest "1.0.0" "GET" "" ⟨412, "", none, "", "1.0.1,0.9.0", ""⟩).2 =
      some (.versionMismatch412 "1.0.1,0.9.0") ∧
    ∃ e, (tusRequest "1.0.0" "GET" "" ⟨200, "", none, "0.9.0", "", ""⟩).2 =
      some e ∧ e.isProtocol = true :=
  ⟨(tusRequest_version_checks "1.0.0" "GET" ""
      ⟨412, "", none, "", "1.0.1,0.9.0", ""⟩ (by decide)).1 rfl,
   (tusRequest_version_checks "1.0.0" "GET" ""
      ⟨200, "", none, "0.9.0", "", ""⟩ (by decide)).2 (by decide)⟩

/-!
Metadata codec (`EncodeMetadata` / `DecodeMetadata`, client.go).  Go
strings are arbitrary byte sequences, so keys, values and the encoded
header are modelled as lists of bytes (`List Nat`, each element < 256).
The space and comma bytes are 32 and 44; `'='` is 61.
-/

/-- `strings.Split(raw, sep)` on byte lists (for a one-byte separator):
splitting the empty string yields one empty field, as in Go. -/
def splitOnByte (sep : Nat) : List Nat → List (List Nat)
  | [] => [[]]
  | c :: rest =>
      if c = sep then [] :: splitOnByte sep rest
      else
        match splitOnByte sep rest with
        | [] => [[c]]
        | g :: gs => (c :: g) :: gs

/-- `strings.Join(groups, sep)` on byte lists. -/
def joinBytes (sep : Nat) : List (List Nat) → List Nat
  | [] => []
  | [g] => g
  | g :: gs => g ++ sep :: joinBytes sep gs

/-- `strings.SplitN(item, sep, 2)` on byte lists: `some (before, after)`
split at the first occurrence of `sep`, or `none` when `sep` does not
occur (Go returns a one-element slice then). -/
def splitFirst (sep : Nat) : List Nat → Option (List Nat × List Nat)
  | [] => none
  | c :: rest =>
      if c = sep then some ([], rest)
      else
        match splitFirst sep rest with
        | none => none
        | some (k, t) => some (c :: k, t)

/-- `res[k] = v` on an association-list model of a Go map: replace the
value of an existing key or append the new binding. -/
def mapInsert {κ α : Type} [DecidableEq κ] (k : κ) (v : α) :
    List (κ × α) → List (κ × α)
  | [] => [(k, v)]
  | (k', v') :: rest =>
      if k' = k then (k, v) :: rest else (k', v') :: mapInsert k v rest

/-- The standard base64 alphabet as ASCII byte values
(`A`–`Z`, `a`–`z`, `0`–`9`, `+`, `/`). -/
def b64alphabet : List Nat :=
  (List.range 26).map (· + 65) ++ (List.range 26).map (· + 97) ++
    (List.range 10).map (· + 48) ++ [43, 47]

/-- The alphabet byte for the sextet `n`. -/
def b64chr (n : Nat) : Nat := b64alphabet.getD n 0

/-- The sextet for an alphabet byte, `none` for bytes outside the
alphabet (including the padding byte `'='`). -/
def b64val (c : Nat) : Option Nat := b64alphabet.indexOf? c

/-- `base64.StdEncoding.EncodeToString` on byte lists: three input bytes
become four alphabet bytes; a final group of one or two bytes is padded
with `'='` (61). -/
def b64encode : List Nat → List Nat
  | [] => []
  | [a] => [b64chr (a / 4), b64chr (a % 4 * 16), 61, 61]
  | [a, b] => [b64chr (a / 4), b64chr (a % 4 * 16 + b / 16), b64chr (b % 16 * 4), 61]
  | a :: b :: c :: rest =>
      b64chr (a / 4) :: b64chr (a % 4 * 16 + b / 16) ::
        b64chr (b % 16 * 4 + c / 64) :: b64chr (c % 64) :: b64encode rest

/-- `base64.StdEncoding.DecodeString` on byte lists: the input must be a
sequence of four-byte groups; `'='` padding is allowed only at the end of
the final group; bytes outside the alphabet are rejected.  As in Go's
(non-strict) decoder, non-zero trailing bits before the padding are
accepted and discarded. -/
def b64decode : List Nat → Except Unit (List Nat)
  | [] => .ok []
  | p :: q :: r :: s :: rest =>
      match b64val p, b64val q with
      | some x, some y =>
          if r = 61 then
            if s = 61 ∧ rest = [] then .ok [x * 4 + y / 16] else .error ()
          else
            match b64val r with
            | some z =>
                if s = 61 then
                  if rest = [] then .ok [x * 4 + y / 16, y % 16 * 16 + z / 4]
                  else .error ()
                else
                  match b64val s with
                  | some w =>
                      match b64decode rest with
                      | .ok tail =>
                          .ok ((x * 4 + y / 16) :: (y % 16 * 16 + z / 4) ::
                            (z % 4 * 64 + w) :: tail)
                      | .error e => .error e
                  | none => .error ()
            | none => .error ()
      | _, _ => .error ()
  | _ => .error ()

/-- The per-key loop of `EncodeMetadata` (client.go): reject the first key
containing a space (byte 32), otherwise emit `<key> <base64(value)>`
items in iteration order. -/
def encodeItems : List (List Nat × List Nat) → Except (List Nat) (List (List Nat))
  | [] => .ok []
  | (k, v) :: rest =>
      if 32 ∈ k then .error k
      else
        match encodeItems rest with
        | .ok items => .ok ((k ++ 32 :: b64encode v) :: items)
        | .error e => .error e

/-- Embedding of `EncodeMetadata` (client.go): encode each pair and join
the items with commas; a key containing a space is an error (carrying the
offending key). -/
def EncodeMetadata (m : List (List Nat × List Nat)) :
    Except (List Nat) (List Nat) :=
  match encodeItems m with
  | .ok items => .ok (joinBytes 44 items)
  | .error e => .error e

/-- The per-item loop of `DecodeMetadata` (client.go): split each item at
its first space — an item without a space is a format error — base64-decode
the value, and store the binding in the result map. -/
def decodeItems (acc : List (List Nat × List Nat)) :
    List (List Nat) → Except Unit (List (List Nat × List Nat))
  | [] => .ok acc
  | item :: rest =>
      match splitFirst 32 item with
      | none => .error ()
      | some (k, tail) =>
          match b64decode tail with
          | .error _ => .error ()
          | .ok v => decodeItems (mapInsert k v acc) rest

/-- Embedding of `DecodeMetadata` (client.go): split the raw header on
commas and decode each item. -/
def DecodeMetadata (raw : List Nat) : Except Unit (List (List Nat × List Nat)) :=
  decodeItems [] (splitOnByte 44 raw)

theorem b64val_b64chr : ∀ n, n < 64 → b64val (b64chr n) = some n := by decide

theorem b64chr_ne_pad : ∀ n, n < 64 → b64chr n ≠ 61 := by decide

theorem b64chr_ne_sep : ∀ n, n < 64 → b64chr n ≠ 44 ∧ b64chr n ≠ 32 := by
  decide

/-- Decoding is a left inverse of encoding on byte lists. -/
theorem b64_roundtrip : ∀ (bs : List Nat), (∀ b ∈ bs, b < 256) →
    b64decode (b64encode bs) = .ok bs
  | [], _ => rfl
  | [a], h => by
      have ha : a < 256 := h a (by simp)
      have h1 := b64val_b64chr (a / 4) (by omega)
      have h2 := b64val_b64chr (a % 4 * 16) (by omega)
      simp only [b64encode, b64decode, h1, h2]
      simp only [if_pos rfl, reduceIte]
      simp
      all_goals omega
  | [a, b], h => by
      have ha : a < 256 := h a (by simp)
      have hb : b < 256 := h b (by simp)
      have h1 := b64val_b64chr (a / 4) (by omega)
      have h2 := b64val_b64chr (a % 4 * 16 + b / 16) (by omega)
      have h3 := b64val_b64chr (b % 16 * 4) (by omega)
      have hne := b64chr_ne_pad (b % 16 * 4) (by omega)
      simp only [b64encode, b64decode, h1, h2, h3]
      rw [if_neg hne]
      simp only [if_pos rfl, reduceIte]
      simp
      all_goals omega
  | a :: b :: c :: d :: rest, h => by
      have ha : a < 256 := h a (by simp)
      have hb : b < 256 := h b (by simp)
      have hc : c < 256 := h c (by simp)
      have h1 := b64val_b64chr (a / 4) (by omega)
      have h2 := b64val_b64chr (a % 4 * 16 + b / 16) (by omega)
      have h3 := b64val_b64chr (b % 16 * 4 + c / 64) (by omega)
      have h4 := b64val_b64chr (c % 64) (by omega)
      have hne3 := b64chr_ne_pad (b % 16 * 4 + c / 64) (by omega)
      have hne4 := b64chr_ne_pad (c % 64) (by omega)
      have ih := b64_roundtrip (d :: rest) (fun x hx => h x (by simp at hx ⊢; tauto))
      simp only [b64encode] at ih ⊢
      simp only [b64decode, h1, h2, h3, h4]
      rw [if_neg hne3, if_neg hne4]
      rw [ih]
      simp
      all_goals omega
  | [a, b, c], h => by
      have ha : a < 256 := h a (by simp)
      have hb : b < 256 := h b (by simp)
      have hc : c < 256 := h c (by simp)
      have h1 := b64val_b64chr (a / 4) (by omega)
      have h2 := b64val_b64chr (a % 4 * 16 + b / 16) (by omega)
      have h3 := b64val_b64chr (b % 16 * 4 + c / 64) (by omega)
      have h4 := b64val_b64chr (c % 64) (by omega)
      have hne3 := b64chr_ne_pad (b % 16 * 4 + c / 64) (by omega)
      have hne4 := b64chr_ne_pad (c % 64) (by omega)
      simp only [b64encode, b64decode, h1, h2, h3, h4]
      rw [if_neg hne3, if_neg hne4]
      simp
      all_goals omega

/-- Every byte of an encoded value is an alphabet byte or the padding
byte, hence never a comma (44) or a space (32). -/
theorem b64encode_sep_free : ∀ (bs : List Nat), (∀ b ∈ bs, b < 256) →
    ∀ c ∈ b64encode bs, c ≠ 44 ∧ c ≠ 32
  | [], _ => by simp [b64encode]
  | [a], h => by
      have ha : a < 256 := h a (by simp)
      have n1 := b64chr_ne_sep (a / 4) (by omega)
      have n2 := b64chr_ne_sep (a % 4 * 16) (by omega)
      intro c hc
      simp only [b64encode, List.mem_cons, List.not_mem_nil, or_false] at hc
      rcases hc with rfl | rfl | rfl | rfl
      · exact n1
      · exact n2
      · exact ⟨by decide, by decide⟩
      · exact ⟨by decide, by decide⟩
  | [a, b], h => by
      have ha : a < 256 := h a (by simp)
      have hb : b < 256 := h b (by simp)
      have n1 := b64chr_ne_sep (a / 4) (by omega)
      have n2 := b64chr_ne_sep (a % 4 * 16 + b / 16) (by omega)
      have n3 := b64chr_ne_sep (b % 16 * 4) (by omega)
      intro c hc
      simp only [b64encode, List.mem_cons, List.not_mem_nil, or_false] at hc
      rcases hc with rfl | rfl | rfl | rfl
      · exact n1
      · exact n2
      · exact n3
      · exact ⟨by decide, by decide⟩
  | a :: b :: c :: d :: rest, h => by
      have ha : a < 256 := h a (by simp)
      have hb : b < 256 := h b (by simp)
      have hc : c < 256 := h c (by simp)
      have n1 := b64chr_ne_sep (a / 4) (by omega)
      have n2 := b64chr_ne_sep (a % 4 * 16 + b / 16) (by omega)
      have n3 := b64chr_ne_sep (b % 16 * 4 + c / 64) (by omega)
      have n4 := b64chr_ne_sep (c % 64) (by omega)
      have ih := b64encode_sep_free (d :: rest)
        (fun x hx => h x (by simp at hx ⊢; tauto))
      intro e he
      simp only [b64encode, List.mem_cons] at he
      rcases he with rfl | rfl | rfl | rfl | he
      · exact n1
      · exact n2
      · exact n3
      · exact n4
      · exact ih e he
  | [a, b, c], h => by
      have ha : a < 256 := h a (by simp)
      have hb : b < 256 := h b (by simp)
      have hc : c < 256 := h c (by simp)
      have n1 := b64chr_ne_sep (a / 4) (by omega)
      have n2 := b64chr_ne_sep (a % 4 * 16 + b / 16) (by omega)
      have n3 := b64chr_ne_sep (b % 16 * 4 + c / 64) (by omega)
      have n4 := b64chr_ne_sep (c % 64) (by omega)
      intro e he
      simp only [b64encode, List.mem_cons, List.not_mem_nil, or_false] at he
      rcases he with rfl | rfl | rfl | rfl
      · exact n1
      · exact n2
      · exact n3
      · exact n4

theorem splitFirst_append (t : List Nat) :
    ∀ (k : List Nat), 32 ∉ k → splitFirst 32 (k ++ 32 :: t) = some (k, t)
  | [], _ => by simp [splitFirst]
  | c :: rest, h => by
      have hc : c ≠ 32 := by intro hh; exact h (by simp [hh])
      have ih := splitFirst_append t rest (fun hh => h (by simp [hh]))
      simp only [List.cons_append, splitFirst, if_neg hc, List.append_eq, ih]

theorem splitOnByte_no_sep : ∀ (g : List Nat), 44 ∉ g →
    splitOnByte 44 g = [g]
  | [], _ => rfl
  | c :: rest, h => by
      have hc : c ≠ 44 := by intro hh; exact h (by simp [hh])
      have ih := splitOnByte_no_sep rest (fun hh => h (by simp [hh]))
      simp only [splitOnByte, if_neg hc, ih]

theorem splitOnByte_append_sep : ∀ (g rest : List Nat), 44 ∉ g →
    splitOnByte 44 (g ++ 44 :: rest) = g :: splitOnByte 44 rest
  | [], rest, _ => by simp [splitOnByte]
  | c :: g', rest, h => by
      have hc : c ≠ 44 := by intro hh; exact h (by simp [hh])
      have ih := splitOnByte_append_sep g' rest (fun hh => h (by simp [hh]))
      simp only [List.cons_append, splitOnByte, if_neg hc, List.append_eq, ih]

/-- Splitting the comma-join of comma-free nonempty groups recovers the
groups. -/
theorem splitOnByte_joinBytes : ∀ (groups : List (List Nat)), groups ≠ [] →
    (∀ g ∈ groups, 44 ∉ g) → splitOnByte 44 (joinBytes 44 groups) = groups
  | [], hne, _ => absurd rfl hne
  | [g], _, hsep => by
      simp only [joinBytes]
      exact splitOnByte_no_sep g (hsep g (by simp))
  | g :: g' :: gs, _, hsep => by
      have ih := splitOnByte_joinBytes (g' :: gs) (by simp)
        (fun x hx => hsep x (by simp at hx ⊢; tauto))
      simp only [joinBytes]
      rw [splitOnByte_append_sep g (joinBytes 44 (g' :: gs))
        (hsep g (by simp))]
      rw [ih]

theorem mapInsert_new {α : Type} (k : List Nat) (v : α) :
    ∀ (acc : List (List Nat × α)), k ∉ acc.map Prod.fst →
      mapInsert k v acc = acc ++ [(k, v)]
  | [], _ => rfl
  | (k', v') :: rest, h => by
      have hk : k' ≠ k := by
        intro hh; exact h (by simp [hh])
      have ih := mapInsert_new k v rest (fun hh => h (by simp at hh ⊢; tauto))
      simp only [mapInsert, if_neg hk, ih, List.cons_append]

/-- Decoding the encoded items of a metadata map with pairwise-distinct,
space-free keys and byte values appends exactly those pairs to the
accumulator. -/
theorem decodeItems_encoded :
    ∀ (m : List (List Nat × List Nat)) (acc : List (List Nat × List Nat)),
      (∀ p ∈ m, 32 ∉ p.1) →
      (∀ p ∈ m, ∀ b ∈ p.2, b < 256) →
      (m.map Prod.fst).Nodup →
      (∀ p ∈ m, p.1 ∉ acc.map Prod.fst) →
      decodeItems acc (m.map fun p => p.1 ++ 32 :: b64encode p.2) =
        .ok (acc ++ m)
  | [], acc, _, _, _, _ => by simp [decodeItems]
  | (k, v) :: rest, acc, hk, hv, hnd, hdisj => by
      have hk0 : 32 ∉ k := hk (k, v) (by simp)
      have hv0 : ∀ b ∈ v, b < 256 := hv (k, v) (by simp)
      have hins : mapInsert k v acc = acc ++ [(k, v)] :=
        mapInsert_new k v acc (hdisj (k, v) (by simp))
      have hnd' : (rest.map Prod.fst).Nodup := by
        simp only [List.map_cons, List.nodup_cons] at hnd
        exact hnd.2
      have hknotin : k ∉ rest.map Prod.fst := by
        simp only [List.map_cons, List.nodup_cons] at hnd
        exact hnd.1
      have hdisj' : ∀ p ∈ rest, p.1 ∉ (acc ++ [(k, v)]).map Prod.fst := by
        intro p hp
        simp only [List.map_append, List.mem_append, List.map_cons,
          List.map_nil, List.mem_singleton]
        push_neg
        refine ⟨hdisj p (by simp [hp]), ?_⟩
        intro hh
        exact hknotin (hh ▸ List.mem_map_of_mem Prod.fst hp)
      have ih := decodeItems_encoded rest (acc ++ [(k, v)])
        (fun p hp => hk p (by simp [hp]))
        (fun p hp => hv p (by simp [hp])) hnd' hdisj'
      simp only [List.map_cons, decodeItems, splitFirst_append (b64encode v) k hk0,
        b64_roundtrip v hv0, hins, ih, List.append_assoc, List.singleton_append,
        List.cons_append, List.nil_append]

theorem encodeItems_ok : ∀ (m : List (List Nat × List Nat)),
    (∀ p ∈ m, 32 ∉ p.1) →
    encodeItems m = .ok (m.map fun p => p.1 ++ 32 :: b64encode p.2)
  | [], _ => rfl
  | (k, v) :: rest, h => by
      have ih := encodeItems_ok rest (fun p hp => h p (by simp [hp]))
      simp only [encodeItems, if_neg (h (k, v) (by simp)), ih, List.map_cons]

theorem encodeItems_err : ∀ (m : List (List Nat × List Nat)),
    (∃ p ∈ m, 32 ∈ p.1) → ∃ e, encodeItems m = .error e
  | [], h => by simp at h
  | (k, v) :: rest, h => by
      by_cases hk : 32 ∈ k
      · exact ⟨k, by simp [encodeItems, hk]⟩
      · have hr : ∃ p ∈ rest, 32 ∈ p.1 := by
          rcases h with ⟨p, hp, hps⟩
          rcases List.mem_cons.mp hp with rfl | hp'
          · exact absurd hps hk
          · exact ⟨p, hp', hps⟩
        obtain ⟨e, he⟩ := encodeItems_err rest hr
        exact ⟨e, by simp [encodeItems, hk, he]⟩

theorem decodeItems_fail : ∀ (items : List (List Nat))
    (acc : List (List Nat × List Nat)) (item : List Nat),
    item ∈ items → splitFirst 32 item = none →
    decodeItems acc items = .error ()
  | [], _, _, hmem, _ => by simp at hmem
  | it :: rest, acc, item, hmem, hnone => by
      rcases List.mem_cons.mp hmem with rfl | hmem'
      · simp [decodeItems, hnone]
      · unfold decodeItems
        cases hsp : splitFirst 32 it with
        | none => rfl
        | some kt =>
          obtain ⟨k1, t1⟩ := kt
          dsimp only
          cases hb : b64decode t1 with
          | error e => rfl
          | ok v =>
            exact decodeItems_fail rest (mapInsert k1 v acc) item hmem' hnone

/-- Claim C6 (amended): the metadata codec.
(1) For every nonempty metadata map whose keys are pairwise distinct and
contain neither a space nor a comma, and whose values are arbitrary bytes,
decoding the encoded form yields the original map.
(2) Encoding a map containing a key with a space returns an error.
(3) Decoding rejects any comma-separated item that has no space separator. -/
theorem metadata_codec_spec :
    (∀ (m : List (List Nat × List Nat)), m ≠ [] →
      (∀ p ∈ m, 32 ∉ p.1 ∧ 44 ∉ p.1) →
      (∀ p ∈ m, ∀ b ∈ p.2, b < 256) →
      (m.map Prod.fst).Nodup →
      ∃ enc, EncodeMetadata m = .ok enc ∧ DecodeMetadata enc = .ok m) ∧
    (∀ (m : List (List Nat × List Nat)), (∃ p ∈ m, 32 ∈ p.1) →
      ∃ e, EncodeMetadata m = .error e) ∧
    (∀ (raw item : List Nat), item ∈ splitOnByte 44 raw →
      splitFirst 32 item = none → DecodeMetadata raw = .error ()) := by
  refine ⟨?_, ?_, ?_⟩
  · intro m hne hkeys hvals hnd
    have henc := encodeItems_ok m (fun p hp => (hkeys p hp).1)
    refine ⟨joinBytes 44 (m.map fun p => p.1 ++ 32 :: b64encode p.2),
      ?_, ?_⟩
    · simp [EncodeMetadata, henc]
    · unfold DecodeMetadata
      rw [splitOnByte_joinBytes]
      · exact decodeItems_encoded m [] (fun p hp => (hkeys p hp).1) hvals
          hnd (by simp)
      · simpa using hne
      · intro g hg
        simp only [List.mem_map] at hg
        obtain ⟨p, hp, rfl⟩ := hg
        intro hmem
        rcases List.mem_append.mp hmem with hink | hins
        · exact (hkeys p hp).2 hink
        · rcases List.mem_cons.mp hins with heq | hinb
          · cases heq
          · exact ((b64encode_sep_free p.2 (hvals p hp)) 44 hinb).1 rfl
  · intro m hm
    obtain ⟨e, he⟩ := encodeItems_err m hm
    exact ⟨e, by simp [EncodeMetadata, he]⟩
  · intro raw item hmem hnone
    exact decodeItems_fail (splitOnByte 44 raw) [] item hmem hnone

/-- Counterexample to claim C6 as stated: the empty metadata map (whose
keys vacuously contain no spaces) encodes to the empty header, but
decoding the empty header fails — Go's `strings.Split` yields one empty
item, which has no space separator.  A key containing a comma (no space)
breaks the round trip the same way. -/
theorem metadata_roundtrip_empty_fails :
    EncodeMetadata [] = .ok [] ∧ DecodeMetadata [] = .error () :=
  ⟨rfl, rfl⟩

/-- Witness for `metadata_codec_spec`: the map {"k" ↦ "hi"}
(bytes `[107] ↦ [104, 105]`) round-trips through the codec. -/
theorem metadata_codec_spec_witness :
    ∃ enc, EncodeMetadata [([107], [104, 105])] = .ok enc ∧
      DecodeMetadata enc = .ok [([107], [104, 105])] :=
  metadata_codec_spec.1 [([107], [104, 105])] (by decide) (by decide)
    (by decide) (by decide)

/-- The client-side view of an upload for the concatenation operation:
its location and its `Partial` flag. -/
structure PUpload where
  location : String
  partFlag : Bool
deriving DecidableEq, Repr

/-- Result of `ConcatenateUploads`: the error, the `Upload-Concat` header
values of the concatenation POSTs actually sent, the location recorded in
the final upload, and the panic flag (empty input list). -/
structure ConcatOutcome where
  err : Option UErr
  sentConcat : List String
  finalLocation : Option String
  panicked : Bool
deriving DecidableEq, Repr

/-- The per-upload loop of `ConcatenateUploads`: the first input whose
`Partial` flag is unset, in order. -/
def firstNonPart : List PUpload → Option PUpload
  | [] => none
  | p :: rest => if p.partFlag then firstNonPart rest else some p

/-- Embedding of `Client.ConcatenateUploads` (the `Upload`-based client):
panic on an empty input list; require the `concatenation` extension
(capabilities cached); reject — before any request is sent — the first
input that is not partial; encode the metadata; then POST with
`Upload-Concat: final;<space-joined locations>` and map the response
(201 fills the final upload's location, 404/410 wrap *upload does not
exist*, anything else is *unexpected response*; a 412 is intercepted by
the request wrapper). -/
def concatenateUploads (exts : List String) (partials : List PUpload)
    (meta : List (List Nat × List Nat)) (resps : List Response) :
    ConcatOutcome :=
  if partials = [] then
    { err := none, sentConcat := [], finalLocation := none, panicked := true }
  else
    match ensureExtension exts "concatenation" with
    | some e =>
        { err := some e, sentConcat := [], finalLocation := none,
          panicked := false }
    | none =>
      match firstNonPart partials with
      | some p =>
          { err := some (.concatNotPart p.location), sentConcat := [],
            finalLocation := none, panicked := false }
      | none =>
        let hdr :=
          "final;" ++ String.intercalate " " (partials.map (·.location))
        match meta with
        | [] => concatSend hdr resps
        | _ :: _ =>
          match EncodeMetadata meta with
          | .error k =>
              { err := some (.metadataKeySpace k), sentConcat := [],
                finalLocation := none, panicked := false }
          | .ok _ => concatSend hdr resps
where
  /-- Send the concatenation POST and handle the response. -/
  concatSend (hdr : String) (resps : List Response) : ConcatOutcome :=
    match resps with
    | [] =>
        { err := some .transport, sentConcat := [hdr],
          finalLocation := none, panicked := false }
    | r :: _ =>
      match tusRequestCheck r with
      | some e =>
          { err := some e, sentConcat := [hdr], finalLocation := none,
            panicked := false }
      | none =>
          if r.statusCode = 201 then
            { err := none, sentConcat := [hdr],
              finalLocation := some r.locationHdr, panicked := false }
          else if r.statusCode = 404 ∨ r.statusCode = 410 then
            { err := some .uploadDoesNotExist, sentConcat := [hdr],
              finalLocation := none, panicked := false }
          else
            { err := some .unexpectedResponse, sentConcat := [hdr],
              finalLocation := none, panicked := false }

theorem firstNonPart_of_exists : ∀ (l : List PUpload),
    (∃ p ∈ l, p.partFlag = false) → ∃ q, firstNonPart l = some q
  | [], h => by simp at h
  | p :: rest, h => by
      by_cases hp : p.partFlag
      · have hr : ∃ q ∈ rest, q.partFlag = false := by
          rcases h with ⟨q, hq, hqf⟩
          rcases List.mem_cons.mp hq with rfl | hq'
          · rw [hp] at hqf; cases hqf
          · exact ⟨q, hq', hqf⟩
        obtain ⟨q, hq⟩ := firstNonPart_of_exists rest hr
        exact ⟨q, by simp [firstNonPart, hp, hq]⟩
      · exact ⟨p, by simp [firstNonPart, hp]⟩

/-- Claim C5: if any input upload given to `ConcatenateUploads` is not
partial (and the `concatenation` extension is supported, so the extension
check does not fire first), a caller error naming a non-partial input is
returned before any concatenation request is issued — no POST carrying an
`Upload-Concat` header is sent. -/
theorem concatenateUploads_rejects_nonPartInput (exts : List String)
    (partials : List PUpload) (meta : List (List Nat × List Nat))
    (resps : List Response)
    (hne : partials ≠ [])
    (hext : "concatenation" ∈ exts)
    (hbad : ∃ p ∈ partials, p.partFlag = false) :
    (∃ loc, (concatenateUploads exts partials meta resps).err =
        some (.concatNotPart loc)) ∧
    (concatenateUploads exts partials meta resps).sentConcat = [] := by
  obtain ⟨q, hq⟩ := firstNonPart_of_exists partials hbad
  unfold concatenateUploads
  rw [if_neg hne]
  unfold ensureExtension
  rw [if_pos hext]
  rw [hq]
  exact ⟨⟨q.location, rfl⟩, rfl⟩

/-- Witness for `concatenateUploads_rejects_nonPartInput`: concatenating
`/foo/bar` (partial) with `/foo/baz` (not partial) is rejected with the
caller error and no request is sent. -/
theorem concatenateUploads_rejects_nonPartInput_witness :
    (∃ loc, (concatenateUploads ["concatenation"]
        [⟨"/foo/bar", true⟩, ⟨"/foo/baz", false⟩] []
        [⟨201, "", none, "1.0.0", "", "/foo/final"⟩]).err =
        some (.concatNotPart loc)) ∧
    (concatenateUploads ["concatenation"]
        [⟨"/foo/bar", true⟩, ⟨"/foo/baz", false⟩] []
        [⟨201, "", none, "1.0.0", "", "/foo/final"⟩]).sentConcat = [] :=
  concatenateUploads_rejects_nonPartInput ["concatenation"]
    [⟨"/foo/bar", true⟩, ⟨"/foo/baz", false⟩] []
    [⟨201, "", none, "1.0.0", "", "/foo/final"⟩]
    (by decide) (by decide) ⟨⟨"/foo/baz", false⟩, by decide, rfl⟩

/-!
Deferred-trailer reader (`checksum/trailer.go`).  The body reader is a
byte list with `bytes.Reader` semantics; each trailer value-reader is
modelled by its drain outcome — the bytes it yields, or a non-EOF failure.
The request's trailer map is an association list from trailer name to an
optional value (`none` = announced but not yet populated, as after
construction). -/
structure DTRState where
  body : List Nat
  readers : List (String × Except Unit (List Nat))
  trailer : List (String × Option (List Nat))
deriving Repr

/-- Embedding of `NewDeferTrailerReader` (checksum/trailer.go): announce
every trailer name on the request by storing a nil value for it. -/
def NewDeferTrailerReader (body : List Nat)
    (readers : List (String × Except Unit (List Nat)))
    (reqTrailer : List (String × Option (List Nat))) : DTRState :=
  { body := body, readers := readers,
    trailer := readers.foldl (fun tr kr => mapInsert kr.1 none tr) reqTrailer }

/-- The drain loop of `DeferTrailerReader.Read`: read each value-reader to
its end and assign the bytes as the trailer value on the request; stop at
the first reader that fails with a non-EOF error.  Returns the updated
trailer map and whether a failure occurred. -/
def drainLoop : List (String × Except Unit (List Nat)) →
    List (String × Option (List Nat)) →
    List (String × Option (List Nat)) × Bool
  | [], tr => (tr, false)
  | (k, .ok bs) :: rest, tr => drainLoop rest (mapInsert k (some bs) tr)
  | (_, .error _) :: _, tr => (tr, true)

/-- The error outcomes of `DeferTrailerReader.Read`. -/
inductive RdErr where
  | eofE
  | drainE
deriving DecidableEq, Repr

/-- Embedding of `DeferTrailerReader.Read(p)` (checksum/trailer.go) for a
buffer of capacity `cap`: forward the read to the body reader; exactly
when the body reports end of stream, drain every value-reader into the
request's trailer map, surfacing a drain failure as the read error. -/
def dtrRead (st : DTRState) (cap : Nat) : Nat × Option RdErr × DTRState :=
  if st.body.isEmpty then
    let d := drainLoop st.readers st.trailer
    if d.2 then (0, some .drainE, { st with trailer := d.1 })
    else (0, some .eofE, { st with trailer := d.1 })
  else
    let n := min cap st.body.length
    (n, none, { st with body := st.body.drop n })

theorem mapInsert_lookup_self {α : Type} (k : String) (v : α) :
    ∀ (l : List (String × α)), (mapInsert k v l).lookup k = some v
  | [] => by simp [mapInsert, List.lookup]
  | (k', v') :: rest => by
      by_cases hk : k' = k
      · simp [mapInsert, hk, List.lookup]
      · have hb : (k == k') = false := beq_eq_false_iff_ne.mpr (Ne.symm hk)
        have ih := mapInsert_lookup_self k v rest
        simp [mapInsert, hk, List.lookup, hb, ih]

theorem mapInsert_lookup_other {α : Type} (k k' : String) (v : α)
    (hne : k' ≠ k) :
    ∀ (l : List (String × α)), (mapInsert k v l).lookup k' = l.lookup k'
  | [] => by
      have hb : (k' == k) = false := beq_eq_false_iff_ne.mpr hne
      simp [mapInsert, List.lookup, hb]
  | (k0, v0) :: rest => by
      by_cases hk : k0 = k
      · subst hk
        have hb : (k' == k0) = false := beq_eq_false_iff_ne.mpr hne
        simp [mapInsert, List.lookup, hb]
      · have ih := mapInsert_lookup_other k k' v hne rest
        cases h0 : (k' == k0) <;> simp [mapInsert, hk, List.lookup, h0, ih]

theorem drainLoop_preserve (k : String) :
    ∀ (readers : List (String × Except Unit (List Nat)))
      (tr : List (String × Option (List Nat))),
      k ∉ readers.map Prod.fst →
      ((drainLoop readers tr).1).lookup k = tr.lookup k
  | [], tr, _ => rfl
  | (k0, .ok bs) :: rest, tr, h => by
      have hk : k ≠ k0 := by intro hh; exact h (by simp [hh])
      have ih := drainLoop_preserve k rest (mapInsert k0 (some bs) tr)
        (fun hh => h (by simp at hh ⊢; tauto))
      rw [drainLoop, ih, mapInsert_lookup_other k0 k (some bs) hk tr]
  | (k0, .error e) :: rest, tr, h => rfl

theorem drainLoop_all_ok :
    ∀ (readers : List (String × Except Unit (List Nat)))
      (tr : List (String × Option (List Nat))),
      (∀ kr ∈ readers, ∃ bs, kr.2 = .ok bs) →
      (drainLoop readers tr).2 = false
  | [], tr, _ => rfl
  | (k0, r0) :: rest, tr, h => by
      obtain ⟨bs, hbs⟩ := h (k0, r0) (by simp)
      subst hbs
      exact drainLoop_all_ok rest _ (fun kr hkr => h kr (by simp [hkr]))

theorem drainLoop_some_fails :
    ∀ (readers : List (String × Except Unit (List Nat)))
      (tr : List (String × Option (List Nat))),
      (∃ kr ∈ readers, ∀ bs, kr.2 ≠ .ok bs) →
      (drainLoop readers tr).2 = true
  | [], tr, h => by simp at h
  | (k0, r0) :: rest, tr, h => by
      cases r0 with
      | error e => rfl
      | ok bs =>
        have hr : ∃ kr ∈ rest, ∀ bs, kr.2 ≠ .ok bs := by
          rcases h with ⟨kr, hkr, hf⟩
          rcases List.mem_cons.mp hkr with rfl | hkr'
          · exact absurd rfl (hf bs)
          · exact ⟨kr, hkr', hf⟩
        exact drainLoop_some_fails rest _ hr

theorem drainLoop_lookup :
    ∀ (readers : List (String × Except Unit (List Nat)))
      (tr : List (String × Option (List Nat))),
      (readers.map Prod.fst).Nodup →
      (∀ kr ∈ readers, ∃ bs, kr.2 = .ok bs) →
      ∀ (k : String) (bs : List Nat),
        readers.lookup k = some (.ok bs) →
        ((drainLoop readers tr).1).lookup k = some (some bs)
  | [], tr, _, _, k, bs, hlk => by simp [List.lookup] at hlk
  | (k0, r0) :: rest, tr, hnd, hok, k, bs, hlk => by
      have hnd0 : k0 ∉ rest.map Prod.fst := by
        simp only [List.map_cons, List.nodup_cons] at hnd
        exact hnd.1
      have hnd' : (rest.map Prod.fst).Nodup := by
        simp only [List.map_cons, List.nodup_cons] at hnd
        exact hnd.2
      obtain ⟨bs0, hbs0⟩ := hok (k0, r0) (by simp)
      simp only at hbs0
      subst hbs0
      by_cases hk : k = k0
      · subst hk
        have hb : (k == k) = true := beq_self_eq_true k
        have hr0 : bs0 = bs := by
          simp [List.lookup, hb] at hlk
          exact hlk
        subst hr0
        rw [drainLoop]
        rw [drainLoop_preserve k rest _ hnd0]
        exact mapInsert_lookup_self k (some bs0) tr
      · have hb : (k == k0) = false := beq_eq_false_iff_ne.mpr hk
        have hlk' : rest.lookup k = some (.ok bs) := by
          simpa [List.lookup, hb] using hlk
        rw [drainLoop]
        exact drainLoop_lookup rest _ hnd'
          (fun kr hkr => hok kr (by simp [hkr])) k bs hlk'

/-- Claim C7: `DeferTrailerReader.Read` forwards each read to the body
reader, and populates no trailer value on the request while body data
remains; exactly when the body signals end of stream, every value-reader
is drained and its bytes are assigned as the trailer value on the request
(stated via lookup, for pairwise-distinct trailer names); a non-EOF
failure while draining any value-reader is returned to the caller as a
read error instead of the end-of-stream signal. -/
theorem deferTrailerReader_contract (st : DTRState) (cap : Nat)
    (hnd : (st.readers.map Prod.fst).Nodup) :
    (st.body ≠ [] →
      dtrRead st cap =
        (min cap st.body.length, none,
          { st with body := st.body.drop (min cap st.body.length) })) ∧
    (st.body = [] → (∀ kr ∈ st.readers, ∃ bs, kr.2 = .ok bs) →
      (dtrRead st cap).1 = 0 ∧
      (dtrRead st cap).2.1 = some .eofE ∧
      ∀ (k : String) (bs : List Nat),
        st.readers.lookup k = some (.ok bs) →
        ((dtrRead st cap).2.2.trailer).lookup k = some (some bs)) ∧
    (st.body = [] → (∃ kr ∈ st.readers, ∀ bs, kr.2 ≠ .ok bs) →
      (dtrRead st cap).2.1 = some .drainE) := by
  refine ⟨?_, ?_, ?_⟩
  · intro hne
    unfold dtrRead
    rw [if_neg (by simpa [List.isEmpty_iff] using hne)]
  · intro hemp hok
    have hfail : (drainLoop st.readers st.trailer).2 = false :=
      drainLoop_all_ok st.readers st.trailer hok
    unfold dtrRead
    rw [if_pos (by simpa [List.isEmpty_iff] using hemp)]
    simp only [hfail, Bool.false_eq_true, if_false]
    exact ⟨by trivial, by trivial,
      fun k bs hlk => drainLoop_lookup st.readers st.trailer hnd hok k bs hlk⟩
  · intro hemp hfailr
    have hfail : (drainLoop st.readers st.trailer).2 = true :=
      drainLoop_some_fails st.readers st.trailer hfailr
    unfold dtrRead
    rw [if_pos (by simpa [List.isEmpty_iff] using hemp)]
    simp only [hfail, if_true]

/-- Witness for `deferTrailerReader_contract`: with the body exhausted and
a single `Upload-Checksum` value-reader yielding bytes `[1, 2]`, a read
returns end of stream and the trailer is populated with those bytes. -/
theorem deferTrailerReader_contract_witness :
    (dtrRead ⟨[], [("Upload-Checksum", .ok [1, 2])],
        [("Upload-Checksum", none)]⟩ 16).2.1 = some .eofE ∧
    ((dtrRead ⟨[], [("Upload-Checksum", .ok [1, 2])],
        [("Upload-Checksum", none)]⟩ 16).2.2.trailer).lookup
      "Upload-Checksum" = some (some [1, 2]) :=
  ⟨((deferTrailerReader_contract ⟨[], [("Upload-Checksum", .ok [1, 2])],
      [("Upload-Checksum", none)]⟩ 16 (by simp)).2.1 rfl
      (by intro kr hkr; simp at hkr; exact ⟨[1, 2], by rw [hkr]⟩)).2.1,
   ((deferTrailerReader_contract ⟨[], [("Upload-Checksum", .ok [1, 2])],
      [("Upload-Checksum", none)]⟩ 16 (by simp)).2.1 rfl
      (by intro kr hkr; simp at hkr; exact ⟨[1, 2], by rw [hkr]⟩)).2.2
      "Upload-Checksum" [1, 2] (by simp [List.lookup])⟩
